import Mathlib

set_option maxHeartbeats 1000000

/-!
Shallow embedding of the resilience infrastructure layer of the TaskFlow
backend: the dual-backend cache service, the sliding-window rate limiter,
the batch job scheduler and the queue worker.  Each definition mirrors one
function of the source; timestamps are milliseconds as integers, TTLs are
seconds as naturals, and the remote store (Redis) is modelled as explicit
state plus a per-call success flag (a failed call stands for a connection,
timeout or protocol error of the remote store).
-/

/-- Association-list lookup, modelling a string-keyed Map or Redis keyspace. -/
def alookup {α : Type} : List (String × α) → String → Option α
  | [], _ => none
  | (k, v) :: rest, key => if k = key then some v else alookup rest key

/-- Association-list insert-or-replace, modelling Map.set / Redis SET. -/
def ainsert {α : Type} : List (String × α) → String → α → List (String × α)
  | [], key, v => [(key, v)]
  | (k, w) :: rest, key, v =>
    if k = key then (key, v) :: rest else (k, w) :: ainsert rest key v

/-- Association-list erase, modelling Map.delete / Redis DEL. -/
def aerase {α : Type} : List (String × α) → String → List (String × α)
  | [], _ => []
  | (k, w) :: rest, key => if k = key then rest else (k, w) :: aerase rest key

/-- A value codec standing for the external JSON.stringify / JSON.parse pair
used by serializeValue and deserializeValue (cache.service.ts lines 147-171).
enc returns none when stringification throws, dec returns none when parsing
throws. -/
structure Codec (V : Type) where
  enc : V → Option String
  dec : String → Option V

/-- Process-wide cache statistics counters (cache.service.ts lines 27-35). -/
structure CacheStats where
  hits : Nat
  misses : Nat
  sets : Nat
  deletes : Nat
  errors : Nat
deriving Repr, DecidableEq

/-- State of CacheService: the remote Redis keyspace holding serialized
strings with their absolute expiry instants, the in-memory fallback Map
holding deep-cloned values with expiry instants, the availability flag and
the statistics counters (cache.service.ts lines 25-41). -/
structure CacheState (V : Type) where
  redisStore : List (String × (String × Int))
  fallbackCache : List (String × (V × Int))
  isRedisAvailable : Bool
  stats : CacheStats

/-- Errors that escape a cache operation to its caller. -/
inductive CacheError
  | serialization
  | remote
deriving Repr, DecidableEq

/-- Key namespacing (cache.service.ts buildKey, lines 142-145). -/
def buildKey (key : String) (ns : Option String) : String :=
  "taskflow:" ++ ns.getD "default" ++ ":" ++ key

/-- Redis GET semantics on the modelled keyspace: a key is visible only
strictly before its expiry instant (SETEX ttl makes it vanish at
setTime + ttl seconds). -/
def redisGet (store : List (String × (String × Int))) (key : String) (now : Int) :
    Option String :=
  match alookup store key with
  | some (s, e) => if now < e then some s else none
  | none => none

/-- deepClone (cache.service.ts lines 458-464): JSON round-trip of the
value, returning the original value when cloning fails. -/
def deepClone {V : Type} (c : Codec V) (v : V) : V :=
  ((c.enc v).bind c.dec).getD v

/-- Default TTL in seconds (cache.service.ts line 37). -/
def DEFAULT_TTL : Nat := 300

/-- CacheService.set (cache.service.ts lines 173-199).  The value is
serialized first; with Redis available the remote SETEX either succeeds or
throws, and the catch block increments the error counter and rethrows
(line 197), propagating the failure to the caller; with Redis unavailable
the deep-cloned value goes to the fallback Map. -/
def cacheSet {V : Type} (c : Codec V) (st : CacheState V) (remoteOk : Bool)
    (key : String) (v : V) (ttlOpt : Option Nat) (ns : Option String) (now : Int) :
    Except CacheError Unit × CacheState V :=
  let ttl := ttlOpt.getD DEFAULT_TTL
  let k := buildKey key ns
  match c.enc v with
  | none =>
    (.error .serialization,
      { st with stats := { st.stats with errors := st.stats.errors + 1 } })
  | some s =>
    if st.isRedisAvailable then
      if remoteOk then
        (.ok (),
          { st with
            redisStore := ainsert st.redisStore k (s, now + (ttl : Int) * 1000),
            stats := { st.stats with sets := st.stats.sets + 1 } })
      else
        (.error .remote,
          { st with stats := { st.stats with errors := st.stats.errors + 1 } })
    else
      (.ok (),
        { st with
          fallbackCache :=
            ainsert st.fallbackCache k (deepClone c v, now + (ttl : Int) * 1000),
          stats := { st.stats with sets := st.stats.sets + 1 } })

/-- CacheService.get (cache.service.ts lines 201-239).  A remote failure is
caught, counted, and surfaced as null (line 237); a fallback entry at or
past its expiry is deleted and treated as a miss; a live fallback value is
re-serialized then deserialized before being returned. -/
def cacheGet {V : Type} (c : Codec V) (st : CacheState V) (remoteOk : Bool)
    (key : String) (ns : Option String) (now : Int) :
    Option V × CacheState V :=
  let k := buildKey key ns
  if st.isRedisAvailable then
    if remoteOk then
      match redisGet st.redisStore k now with
      | some s =>
        match c.dec s with
        | some v =>
          (some v, { st with stats := { st.stats with hits := st.stats.hits + 1 } })
        | none =>
          (none,
            { st with
              stats := { st.stats with
                hits := st.stats.hits + 1, errors := st.stats.errors + 1 } })
      | none =>
        (none, { st with stats := { st.stats with misses := st.stats.misses + 1 } })
    else
      (none, { st with stats := { st.stats with errors := st.stats.errors + 1 } })
  else
    match alookup st.fallbackCache k with
    | some (v, e) =>
      if e < now then
        (none,
          { st with
            fallbackCache := aerase st.fallbackCache k,
            stats := { st.stats with misses := st.stats.misses + 1 } })
      else
        match c.enc v with
        | none =>
          (none, { st with stats := { st.stats with errors := st.stats.errors + 1 } })
        | some s =>
          match c.dec s with
          | some v2 =>
            (some v2,
              { st with stats := { st.stats with hits := st.stats.hits + 1 } })
          | none =>
            (none,
              { st with
                stats := { st.stats with
                  hits := st.stats.hits + 1, errors := st.stats.errors + 1 } })
    | none =>
      (none, { st with stats := { st.stats with misses := st.stats.misses + 1 } })

/-- CacheService.delete (cache.service.ts lines 241-267).  A remote failure
is caught, counted, and surfaced as false (line 265). -/
def cacheDelete {V : Type} (c : Codec V) (st : CacheState V) (remoteOk : Bool)
    (key : String) (ns : Option String) (now : Int) :
    Bool × CacheState V :=
  let _ := c
  let k := buildKey key ns
  if st.isRedisAvailable then
    if remoteOk then
      let deleted := (redisGet st.redisStore k now).isSome
      (deleted,
        { st with
          redisStore := aerase st.redisStore k,
          stats :=
            { st.stats with
              deletes := st.stats.deletes + (if deleted then 1 else 0) } })
    else
      (false, { st with stats := { st.stats with errors := st.stats.errors + 1 } })
  else
    let deleted := (alookup st.fallbackCache k).isSome
    (deleted,
      { st with
        fallbackCache := aerase st.fallbackCache k,
        stats :=
          { st.stats with
            deletes := st.stats.deletes + (if deleted then 1 else 0) } })

/-- CacheService.has (cache.service.ts lines 309-336).  A remote failure is
caught, counted, and surfaced as false; an expired fallback entry is
deleted and reported as absent. -/
def cacheHas {V : Type} (c : Codec V) (st : CacheState V) (remoteOk : Bool)
    (key : String) (ns : Option String) (now : Int) :
    Bool × CacheState V :=
  let _ := c
  let k := buildKey key ns
  if st.isRedisAvailable then
    if remoteOk then
      ((redisGet st.redisStore k now).isSome, st)
    else
      (false, { st with stats := { st.stats with errors := st.stats.errors + 1 } })
  else
    match alookup st.fallbackCache k with
    | some (_, e) =>
      if e < now then
        (false, { st with fallbackCache := aerase st.fallbackCache k })
      else
        (true, st)
    | none => (false, st)

/-- Deserialization of an MGET reply (cache.service.ts lines 345-347): the
map callback throws at the first malformed present value, aborting the
whole list. -/
def decodeAll {V : Type} (c : Codec V) : List (Option String) → Option (List (Option V))
  | [] => some []
  | none :: rest => (decodeAll c rest).map (none :: ·)
  | some s :: rest =>
    match c.dec s with
    | none => none
    | some v => (decodeAll c rest).map (some v :: ·)

/-- CacheService.mget (cache.service.ts lines 338-366).  A remote failure or
a deserialization throw is caught, counted, and surfaced as an all-null
list (line 364); the fallback path returns stored values that are not past
expiry, without deserialization. -/
def cacheMget {V : Type} (c : Codec V) (st : CacheState V) (remoteOk : Bool)
    (keys : List String) (ns : Option String) (now : Int) :
    List (Option V) × CacheState V :=
  let cacheKeys := keys.map (fun key => buildKey key ns)
  if st.isRedisAvailable then
    if remoteOk then
      match decodeAll c (cacheKeys.map (fun k => redisGet st.redisStore k now)) with
      | some l => (l, st)
      | none =>
        (keys.map (fun _ => none),
          { st with stats := { st.stats with errors := st.stats.errors + 1 } })
    else
      (keys.map (fun _ => none),
        { st with stats := { st.stats with errors := st.stats.errors + 1 } })
  else
    (cacheKeys.map (fun k =>
        match alookup st.fallbackCache k with
        | some (v, e) => if now ≤ e then some v else none
        | none => none),
      st)

/-- Serialization pass of mset on the remote branch (cache.service.ts
line 377): pairs are serialized one by one and the first failure throws
before the pipeline is executed. -/
def encodePairs {V : Type} (c : Codec V) : List (String × V) → Option (List (String × String))
  | [] => some []
  | (k, v) :: rest =>
    match c.enc v with
    | none => none
    | some s => (encodePairs c rest).map ((k, s) :: ·)

/-- CacheService.mset (cache.service.ts lines 368-403).  On the remote
branch every pair is serialized and written through a pipeline whose
failure is caught, counted, and rethrown (line 401); on the fallback branch
deep clones are stored with a shared expiry. -/
def cacheMset {V : Type} (c : Codec V) (st : CacheState V) (remoteOk : Bool)
    (pairs : List (String × V)) (ttlOpt : Option Nat) (ns : Option String) (now : Int) :
    Except CacheError Unit × CacheState V :=
  let ttl := ttlOpt.getD DEFAULT_TTL
  if st.isRedisAvailable then
    match encodePairs c pairs with
    | none =>
      (.error .serialization,
        { st with stats := { st.stats with errors := st.stats.errors + 1 } })
    | some encs =>
      if remoteOk then
        (.ok (),
          { st with
            redisStore :=
              encs.foldl
                (fun store p =>
                  ainsert store (buildKey p.1 ns) (p.2, now + (ttl : Int) * 1000))
                st.redisStore,
            stats := { st.stats with sets := st.stats.sets + pairs.length } })
      else
        (.error .remote,
          { st with stats := { st.stats with errors := st.stats.errors + 1 } })
  else
    (.ok (),
      { st with
        fallbackCache :=
          pairs.foldl
            (fun store p =>
              ainsert store (buildKey p.1 ns) (deepClone c p.2, now + (ttl : Int) * 1000))
            st.fallbackCache,
        stats := { st.stats with sets := st.stats.sets + pairs.length } })

/-- Expiry instant of the entry stored for a full cache key in the backend
the service is currently using. -/
def entryExpiry {V : Type} (st : CacheState V) (k : String) : Option Int :=
  if st.isRedisAvailable then
    (alookup st.redisStore k).map (fun p => p.2)
  else
    (alookup st.fallbackCache k).map (fun p => p.2)

/-- A concrete injective codec over natural numbers (unary encoding) used to
instantiate witnesses. -/
def natCodec : Codec Nat :=
  { enc := fun n => some (String.mk (List.replicate n 'a')),
    dec := fun s => some s.length }

/-- A concrete cache state with the remote store marked available. -/
def exampleRedisState : CacheState Nat :=
  { redisStore := [], fallbackCache := [], isRedisAvailable := true,
    stats := ⟨0, 0, 0, 0, 0⟩ }

theorem alookup_ainsert_self {α : Type} (l : List (String × α)) (k : String) (v : α) :
    alookup (ainsert l k v) k = some v := by
  induction l with
  | nil => simp [ainsert, alookup]
  | cons hd tl ih =>
    by_cases h : hd.1 = k
    · simp [ainsert, alookup, h]
    · simp [ainsert, alookup, h, ih]

/-- A concrete cache state in fallback mode holding one entry that expires
at instant 100. -/
def exampleFallbackState : CacheState Nat :=
  { redisStore := [], fallbackCache := [("taskflow:default:k", (7, 100))],
    isRedisAvailable := false, stats := ⟨0, 0, 0, 0, 0⟩ }

theorem decodeAll_get_none {V : Type} (c : Codec V) :
    ∀ (raw : List (Option String)) (l : List (Option V)) (i : Nat),
      decodeAll c raw = some l → raw.get? i = some none → l.get? i = some none := by
  intro raw
  induction raw with
  | nil => intro l i h hi; simp at hi
  | cons hd tl ih =>
    intro l i h hi
    match hd with
    | none =>
      simp only [decodeAll, Option.map_eq_some'] at h
      obtain ⟨l2, hl2, hcons⟩ := h
      subst hcons
      cases i with
      | zero => rfl
      | succ n =>
        simp only [List.get?] at hi ⊢
        exact ih l2 n hl2 hi
    | some s =>
      cases i with
      | zero => simp at hi
      | succ n =>
        simp only [decodeAll] at h
        cases hdec : c.dec s with
        | none => rw [hdec] at h; simp at h
        | some v =>
          rw [hdec] at h
          simp only [Option.map_eq_some'] at h
          obtain ⟨l2, hl2, hcons⟩ := h
          subst hcons
          simp only [List.get?] at hi ⊢
          exact ih l2 n hl2 hi

/-- C1 counterexample: with the remote store available but the remote call
failing (connection, timeout or protocol error), CacheService.set rejects
with the remote error rather than retrying against the fallback store or
completing, refuting the claim that no cache call rejects with the remote
failure. -/
theorem cache_set_remote_failure_rejects :
    (cacheSet natCodec exampleRedisState false "stats:u1" 5 (some 300)
        (some "tasks") 0).1 = Except.error CacheError.remote := rfl

/-- C1 amended: while the remote store is marked available and a remote call
fails, get returns null, has returns false, delete returns false, and mget
returns all nulls, each without propagating the remote error and without
touching the fallback store; set and mset, however, propagate the remote
error to the caller.  No operation is retried against the fallback store on
an in-flight remote failure. -/
theorem cache_ops_remote_failure_behavior {V : Type} (c : Codec V)
    (st : CacheState V) (key : String) (keys : List String)
    (pairs : List (String × V)) (v : V) (ttlOpt : Option Nat)
    (ns : Option String) (now : Int)
    (hav : st.isRedisAvailable = true)
    (hv : (c.enc v).isSome) (hp : (encodePairs c pairs).isSome) :
    (cacheGet c st false key ns now).1 = none ∧
    (cacheGet c st false key ns now).2.fallbackCache = st.fallbackCache ∧
    (cacheHas c st false key ns now).1 = false ∧
    (cacheDelete c st false key ns now).1 = false ∧
    (cacheMget c st false keys ns now).1 = keys.map (fun _ => none) ∧
    (cacheSet c st false key v ttlOpt ns now).1 = Except.error CacheError.remote ∧
    (cacheSet c st false key v ttlOpt ns now).2.fallbackCache = st.fallbackCache ∧
    (cacheMset c st false pairs ttlOpt ns now).1 = Except.error CacheError.remote := by
  obtain ⟨s, hs⟩ := Option.isSome_iff_exists.mp hv
  obtain ⟨es, hes⟩ := Option.isSome_iff_exists.mp hp
  refine ⟨?_, ?_, ?_, ?_, ?_, ?_, ?_, ?_⟩ <;>
    simp [cacheGet, cacheHas, cacheDelete, cacheMget, cacheSet, cacheMset,
      hav, hs, hes]

theorem cache_ops_remote_failure_behavior_witness :
    (cacheMset natCodec exampleRedisState false [("a", 1)] none none 0).1
      = Except.error CacheError.remote :=
  (cache_ops_remote_failure_behavior natCodec exampleRedisState "k" [] [("a", 1)]
    7 none none 0 rfl rfl rfl).2.2.2.2.2.2.2

/-- C6: a cache read performed strictly past the stored entry expiry instant
returns absent: get returns null, has returns false, and mget returns null
at the position of the expired key, whether the entry lives in the remote
store or in the fallback store, and whether or not the remote call
succeeds. -/
theorem cache_never_returns_expired {V : Type} (c : Codec V) (st : CacheState V)
    (remoteOk : Bool) (key : String) (ns : Option String) (now e : Int)
    (hent : entryExpiry st (buildKey key ns) = some e) (hpast : e < now) :
    (cacheGet c st remoteOk key ns now).1 = none ∧
    (cacheHas c st remoteOk key ns now).1 = false ∧
    (∀ (keys : List String) (i : Nat), keys.get? i = some key →
      (cacheMget c st remoteOk keys ns now).1.get? i = some none) := by
  by_cases hav : st.isRedisAvailable
  · simp only [entryExpiry, hav, if_pos, Option.map_eq_some'] at hent
    obtain ⟨⟨s, e0⟩, hlk, he⟩ := hent
    simp only at he
    subst he
    have hng : redisGet st.redisStore (buildKey key ns) now = none := by
      simp [redisGet, hlk]
      omega
    refine ⟨?_, ?_, ?_⟩
    · cases remoteOk <;> simp [cacheGet, hav, hng]
    · cases remoteOk <;> simp [cacheHas, hav, hng]
    · intro keys i hk
      cases remoteOk with
      | false =>
        simp only [cacheMget, hav, if_pos, Bool.false_eq_true, if_false]
        rw [List.get?_map, hk]
        rfl
      | true =>
        simp only [cacheMget, hav, if_pos, if_true]
        cases hdec : decodeAll c
            ((keys.map (fun k => buildKey k ns)).map
              (fun k => redisGet st.redisStore k now)) with
        | none =>
          simp only [hdec]
          rw [List.get?_map, hk]
          rfl
        | some l =>
          simp only [hdec]
          refine decodeAll_get_none c _ l i hdec ?_
          rw [List.get?_map, List.get?_map, hk]
          simp [hng]
  · simp only [entryExpiry, hav, if_neg, Option.map_eq_some', Bool.false_eq_true,
      if_false] at hent
    obtain ⟨⟨v0, e0⟩, hlk, he⟩ := hent
    simp only at he
    subst he
    refine ⟨?_, ?_, ?_⟩
    · simp [cacheGet, hav, hlk, hpast]
    · simp [cacheHas, hav, hlk, hpast]
    · intro keys i hk
      simp only [cacheMget, hav, Bool.false_eq_true, if_false]
      rw [List.get?_map, List.get?_map, hk]
      simp [hlk]
      omega

theorem cache_never_returns_expired_witness :
    (cacheGet natCodec exampleFallbackState true "k" none 200).1 = none :=
  (cache_never_returns_expired natCodec exampleFallbackState true "k" none
    200 100 rfl (by decide)).1

/-- C7: a set of value v with ttl seconds followed by a get of the same key
and namespace before the ttl has elapsed returns v, in both the remote
backend and the fallback backend, provided the value survives the external
JSON round-trip and the remote calls succeed. -/
theorem cache_set_get_roundtrip {V : Type} (c : Codec V) (st : CacheState V)
    (key : String) (ns : Option String) (v : V) (s : String) (ttl : Nat)
    (t t2 : Int)
    (henc : c.enc v = some s) (hdec : c.dec s = some v)
    (hbefore : t2 < t + (ttl : Int) * 1000) :
    (cacheGet c (cacheSet c st true key v (some ttl) ns t).2 true key ns t2).1
      = some v := by
  have hclone : deepClone c v = v := by simp [deepClone, henc, hdec]
  by_cases hav : st.isRedisAvailable
  · simp only [cacheSet, henc, hav, if_pos, if_true, Option.getD_some]
    simp only [cacheGet, hav, if_pos, if_true, redisGet,
      alookup_ainsert_self]
    rw [if_pos hbefore]
    simp [hdec]
  · simp only [cacheSet, henc, hav, Bool.false_eq_true, if_false,
      Option.getD_some]
    simp only [cacheGet, hav, Bool.false_eq_true, if_false,
      alookup_ainsert_self]
    rw [if_neg (by omega), hclone, henc]
    simp [hdec]

theorem cache_set_get_roundtrip_witness :
    (cacheGet natCodec
        (cacheSet natCodec exampleRedisState true "k" 5 (some 300) none 0).2
        true "k" none 1000).1 = some 5 :=
  cache_set_get_roundtrip natCodec exampleRedisState "k" none 5 "aaaaa" 300 0
    1000 (by decide) (by decide) (by decide)

/-- RateLimitResult (part_010 lines 13-19): the decision returned by a rate
limit check. -/
structure RateLimitResult where
  allowed : Bool
  limit : Nat
  remaining : Nat
  resetTime : Int
  totalHits : Nat
deriving Repr, DecidableEq

/-- The Redis sorted set backing one identifier in the sliding-window log:
its member timestamps and the absolute instant at which the whole key
expires (set by the EXPIRE call of the Lua script). -/
structure RedisWindow where
  events : List Int
  keyExpiresAt : Int
deriving Repr, DecidableEq

/-- Minimum of a list of timestamps, modelling ZRANGE key 0 0 WITHSCORES on
a sorted set. -/
def listMin : List Int → Option Int
  | [] => none
  | x :: rest =>
    match listMin rest with
    | none => some x
    | some m => some (min x m)

/-- Seconds-granularity ceiling used by the EXPIRE call of the Lua script
(part_010 line 159). -/
def ceilSec (windowMs : Nat) : Nat := (windowMs + 999) / 1000

/-- RateLimitService.checkRedisRateLimit (part_010 lines 130-185): the
atomic Lua script.  On a live key it removes members with score in
[0, now - windowMs], counts the survivors, and either denies (remaining 0,
reset at the oldest surviving member plus the window) or admits (adding the
current timestamp as a set member and refreshing the key expiry). -/
def checkRedisRateLimit (w : RedisWindow) (limit : Nat) (windowMs : Nat)
    (now : Int) : RateLimitResult × RedisWindow :=
  let live := if w.keyExpiresAt ≤ now then [] else w.events
  let windowStart : Int := now - (windowMs : Int)
  let pruned := live.filter (fun t => !(decide (0 ≤ t) && decide (t ≤ windowStart)))
  let current := pruned.length
  if limit ≤ current then
    let reset :=
      match listMin pruned with
      | some o => o + (windowMs : Int)
      | none => now + (windowMs : Int)
    ({ allowed := false, limit := limit, remaining := 0, resetTime := reset,
       totalHits := current },
     { events := pruned, keyExpiresAt := w.keyExpiresAt })
  else
    ({ allowed := true, limit := limit, remaining := limit - current - 1,
       resetTime := now + (windowMs : Int), totalHits := current + 1 },
     { events := if now ∈ pruned then pruned else pruned ++ [now],
       keyExpiresAt := now + (ceilSec windowMs : Int) * 1000 })

/-- One identifier record of the fixed-window fallback storage (part_010
line 27). -/
structure FallbackEntry where
  count : Nat
  resetTime : Int
deriving Repr, DecidableEq

/-- RateLimitService.checkFallbackRateLimit (part_010 lines 187-231): a
fixed-window counter.  An absent or expired record starts a fresh window
with count 1; a live record at or above the limit denies without touching
the stored pair; otherwise the count is incremented in place. -/
def checkFallbackRateLimit (storage : List (String × FallbackEntry))
    (key : String) (limit : Nat) (windowMs : Nat) (now : Int) :
    RateLimitResult × List (String × FallbackEntry) :=
  match alookup storage key with
  | some d =>
    if d.resetTime ≤ now then
      ({ allowed := true, limit := limit, remaining := limit - 1,
         resetTime := now + (windowMs : Int), totalHits := 1 },
       ainsert storage key ⟨1, now + (windowMs : Int)⟩)
    else if limit ≤ d.count then
      ({ allowed := false, limit := limit, remaining := 0,
         resetTime := d.resetTime, totalHits := d.count },
       storage)
    else
      ({ allowed := true, limit := limit, remaining := limit - (d.count + 1),
         resetTime := d.resetTime, totalHits := d.count + 1 },
       ainsert storage key ⟨d.count + 1, d.resetTime⟩)
  | none =>
    ({ allowed := true, limit := limit, remaining := limit - 1,
       resetTime := now + (windowMs : Int), totalHits := 1 },
     ainsert storage key ⟨1, now + (windowMs : Int)⟩)

/-- State of RateLimitService (part_010 lines 24-28). -/
structure RateLimitState where
  isRedisAvailable : Bool
  redisWindows : List (String × RedisWindow)
  fallbackStorage : List (String × FallbackEntry)

/-- A remote (Redis) failure during a rate limit check. -/
inductive RLError
  | remote
deriving Repr, DecidableEq

/-- RateLimitService.checkRateLimit (part_010 lines 103-128).  With Redis
available the promise of checkRedisRateLimit is returned from inside the
try block WITHOUT being awaited (line 113), so its rejection bypasses the
fail-open catch of lines 117-127 and surfaces to the caller as a rejection;
the catch only intercepts synchronous throws, and the fallback path is
fully synchronous and cannot throw. -/
def checkRateLimit (st : RateLimitState) (remoteOk : Bool) (identifier : String)
    (limit : Nat) (windowMs : Nat) (keyPref : Option String) (now : Int) :
    Except RLError RateLimitResult × RateLimitState :=
  let key := keyPref.getD "rl" ++ ":" ++ identifier
  if st.isRedisAvailable then
    if remoteOk then
      let w := (alookup st.redisWindows key).getD ⟨[], 0⟩
      let r := checkRedisRateLimit w limit windowMs now
      (.ok r.1, { st with redisWindows := ainsert st.redisWindows key r.2 })
    else
      (.error .remote, st)
  else
    let r := checkFallbackRateLimit st.fallbackStorage key limit windowMs now
    (.ok r.1, { st with fallbackStorage := r.2 })

/-- C3: with the remote store available, a Redis failure during the check
(network error rejecting the Lua eval) makes checkRateLimit reject with the
remote error instead of resolving to an allowed decision: the un-awaited
promise returned at part_010 line 113 bypasses the fail-open catch, so the
system does not fail open at this layer. -/
theorem rate_limit_remote_error_rejects :
    (checkRateLimit ⟨true, [], []⟩ false "user-42" 5 60000 none 1000).1
      = Except.error RLError.remote := rfl

/-- C10: in fallback (fixed-window) mode, a denied check leaves the stored
(count, resetTime) pair untouched: when the live window has count at or
above the limit, checkRateLimit returns allowed false with remaining 0, the
stored reset time and the stored count as totalHits, and the fallback
storage after the call is exactly the storage before it. -/
theorem fallback_denied_check_leaves_state_unchanged (st : RateLimitState)
    (identifier : String) (limit windowMs : Nat) (keyPref : Option String)
    (now : Int) (c : Nat) (rt : Int)
    (hav : st.isRedisAvailable = false)
    (hlk : alookup st.fallbackStorage (keyPref.getD "rl" ++ ":" ++ identifier)
      = some ⟨c, rt⟩)
    (hlive : now < rt) (hfull : limit ≤ c) :
    (checkRateLimit st true identifier limit windowMs keyPref now).1
      = Except.ok ⟨false, limit, 0, rt, c⟩ ∧
    (checkRateLimit st true identifier limit windowMs keyPref now).2.fallbackStorage
      = st.fallbackStorage := by
  have hnle : ¬ rt ≤ now := by omega
  constructor <;>
    simp [checkRateLimit, checkFallbackRateLimit, hav, hlk, hnle, hfull]

theorem fallback_denied_check_leaves_state_unchanged_witness :
    (checkRateLimit ⟨false, [], [("rl:user-42", ⟨5, 7000⟩)]⟩ true "user-42"
        5 60000 none 1000).1 = Except.ok ⟨false, 5, 0, 7000, 5⟩ :=
  (fallback_denied_check_leaves_state_unchanged
    ⟨false, [], [("rl:user-42", ⟨5, 7000⟩)]⟩ "user-42" 5 60000 none 1000 5 7000
    rfl (by decide) (by decide) (by decide)).1

/-- A sequence of rate limit checks for one identifier against the Redis
sliding-window log, threading the sorted-set state from check to check. -/
def runChecks (limit windowMs : Nat) : RedisWindow → List Int → List RateLimitResult × RedisWindow
  | w, [] => ([], w)
  | w, t :: ts =>
    let r := checkRedisRateLimit w limit windowMs t
    let rest := runChecks limit windowMs r.2 ts
    (r.1 :: rest.1, rest.2)

theorem listMin_mem : ∀ (l : List Int) (m : Int), listMin l = some m → m ∈ l := by
  intro l
  induction l with
  | nil => intro m h; simp [listMin] at h
  | cons x rest ih =>
    intro m h
    simp only [listMin] at h
    cases hr : listMin rest with
    | none => rw [hr] at h; simp at h; simp [h]
    | some m2 =>
      rw [hr] at h
      simp only [Option.some_inj] at h
      rcases le_total x m2 with hle | hle
      · have hx : m = x := by rw [min_eq_left hle] at h; omega
        subst hx
        exact List.mem_cons_self _ _
      · have hx : m = m2 := by rw [min_eq_right hle] at h; omega
        subst hx
        exact List.mem_cons_of_mem _ (ih _ hr)

theorem listMin_head_of_le (x : Int) (l : List Int) (hle : ∀ a ∈ l, x ≤ a) :
    listMin (x :: l) = some x := by
  simp only [listMin]
  cases hr : listMin l with
  | none => rfl
  | some m =>
    have hm := listMin_mem l m hr
    simp [min_eq_left (hle m hm)]

theorem windowMs_le_ceilSec (windowMs : Nat) :
    (windowMs : Int) ≤ (ceilSec windowMs : Int) * 1000 := by
  have h : windowMs ≤ ceilSec windowMs * 1000 := by
    simp only [ceilSec]
    omega
  exact_mod_cast h

theorem runChecks_length (limit windowMs : Nat) :
    ∀ (ts : List Int) (w : RedisWindow),
      (runChecks limit windowMs w ts).1.length = ts.length := by
  intro ts
  induction ts with
  | nil => intro w; rfl
  | cons t rest ih => intro w; simp [runChecks, ih]

theorem runChecks_append (limit windowMs : Nat) :
    ∀ (l1 l2 : List Int) (w : RedisWindow),
      runChecks limit windowMs w (l1 ++ l2)
        = ((runChecks limit windowMs w l1).1
            ++ (runChecks limit windowMs (runChecks limit windowMs w l1).2 l2).1,
           (runChecks limit windowMs (runChecks limit windowMs w l1).2 l2).2) := by
  intro l1
  induction l1 with
  | nil => intro l2 w; rfl
  | cons t rest ih => intro l2 w; simp [runChecks, ih]

theorem check_admit_step (limit windowMs : Nat) (evs : List Int) (ke t : Int)
    (hlen : evs.length < limit)
    (hfresh : ∀ e ∈ evs, e < t)
    (hwin : ∀ e ∈ evs, t < e + (windowMs : Int))
    (hke : evs = [] ∨ t < ke) :
    checkRedisRateLimit ⟨evs, ke⟩ limit windowMs t
      = ({ allowed := true, limit := limit, remaining := limit - evs.length - 1,
           resetTime := t + (windowMs : Int), totalHits := evs.length + 1 },
         ⟨evs ++ [t], t + (ceilSec windowMs : Int) * 1000⟩) := by
  have hlive : (if ke ≤ t then ([] : List Int) else evs) = evs := by
    rcases hke with h | h
    · subst h; simp
    · rw [if_neg (by omega)]
  have hpr : evs.filter
      (fun u => !(decide (0 ≤ u) && decide (u ≤ t - (windowMs : Int)))) = evs := by
    apply List.filter_eq_self.mpr
    intro e he
    have h1 := hwin e he
    have h2 : ¬ (e ≤ t - (windowMs : Int)) := by omega
    simp [h2]
  have hmem : t ∉ evs := by
    intro h
    exact absurd (hfresh t h) (lt_irrefl t)
  unfold checkRedisRateLimit
  simp only [hlive, hpr]
  rw [if_neg (by omega), if_neg hmem]

theorem check_deny_step (limit windowMs : Nat) (w : RedisWindow) (t m : Int)
    (hlen : limit ≤ w.events.length)
    (hwin : ∀ e ∈ w.events, t < e + (windowMs : Int))
    (hke : t < w.keyExpiresAt)
    (hmin : listMin w.events = some m) :
    checkRedisRateLimit w limit windowMs t
      = ({ allowed := false, limit := limit, remaining := 0,
           resetTime := m + (windowMs : Int), totalHits := w.events.length },
         w) := by
  have hlive : (if w.keyExpiresAt ≤ t then ([] : List Int) else w.events)
      = w.events := by
    rw [if_neg (by omega)]
  have hpr : w.events.filter
      (fun u => !(decide (0 ≤ u) && decide (u ≤ t - (windowMs : Int))))
      = w.events := by
    apply List.filter_eq_self.mpr
    intro e he
    have h1 := hwin e he
    have h2 : ¬ (e ≤ t - (windowMs : Int)) := by omega
    simp [h2]
  unfold checkRedisRateLimit
  simp only [hlive, hpr]
  rw [if_pos hlen, hmin]

theorem runChecks_all_admitted (limit windowMs : Nat) (hw : 0 < windowMs) :
    ∀ (ts evs : List Int) (ke : Int),
      evs.length + ts.length ≤ limit →
      List.Pairwise (fun a b => a < b) (evs ++ ts) →
      (∀ a ∈ evs ++ ts, ∀ b ∈ evs ++ ts, b < a + (windowMs : Int)) →
      (evs = [] ∨ ∀ u ∈ ts, u < ke) →
      (runChecks limit windowMs ⟨evs, ke⟩ ts).2.events = evs ++ ts ∧
      (∀ r ∈ (runChecks limit windowMs ⟨evs, ke⟩ ts).1, r.allowed = true) ∧
      (runChecks limit windowMs ⟨evs, ke⟩ ts).2.keyExpiresAt
        = (match ts.getLast? with
           | none => ke
           | some u => u + (ceilSec windowMs : Int) * 1000) := by
  intro ts
  induction ts with
  | nil =>
    intro evs ke hlen hpw hspan hke
    refine ⟨by simp [runChecks], by simp [runChecks], by simp [runChecks]⟩
  | cons t ts2 ih =>
    intro evs ke hlen hpw hspan hke
    simp only [List.length_cons] at hlen
    have hke1 : evs = [] ∨ t < ke := by
      rcases hke with h | h
      · exact Or.inl h
      · exact Or.inr (h t (by simp))
    have hfresh : ∀ e ∈ evs, e < t := by
      intro e he
      have := (List.pairwise_append.mp hpw).2.2 e he t (by simp)
      exact this
    have hwin : ∀ e ∈ evs, t < e + (windowMs : Int) := by
      intro e he
      exact hspan e (by simp [he]) t (by simp)
    have hstep := check_admit_step limit windowMs evs ke t
      (by omega) hfresh hwin hke1
    have hassoc : (evs ++ [t]) ++ ts2 = evs ++ t :: ts2 := by simp
    have hke2 : evs ++ [t] = [] ∨ ∀ u ∈ ts2, u < t + (ceilSec windowMs : Int) * 1000 := by
      right
      intro u hu
      have h1 : u < t + (windowMs : Int) := by
        refine hspan t (by simp) u ?_
        simp [hu]
      have h2 := windowMs_le_ceilSec windowMs
      omega
    have hih := ih (evs ++ [t]) (t + (ceilSec windowMs : Int) * 1000)
      (by simp; omega)
      (by rw [hassoc]; exact hpw)
      (by rw [hassoc]; exact hspan)
      hke2
    simp only [runChecks, hstep]
    refine ⟨?_, ?_, ?_⟩
    · rw [hih.1, hassoc]
    · intro r hr
      simp only [List.mem_cons] at hr
      rcases hr with h | h
      · subst h; rfl
      · exact hih.2.1 r h
    · rw [hih.2.2]
      cases ts2 with
      | nil => rfl
      | cons v vs => rfl

theorem take_append_of_length {α : Type} (l1 l2 : List α) (n : Nat)
    (h : l1.length = n) : (l1 ++ l2).take n = l1 := by
  subst h
  induction l1 with
  | nil => rfl
  | cons x t ih => simp [ih]

theorem get?_append_singleton {α : Type} (l : List α) (a : α) (n : Nat)
    (h : l.length = n) : (l ++ [a]).get? n = some a := by
  subst h
  induction l with
  | nil => rfl
  | cons x t ih => simpa using ih

theorem runChecks_single (limit windowMs : Nat) (w : RedisWindow) (t : Int) :
    runChecks limit windowMs w [t]
      = ([(checkRedisRateLimit w limit windowMs t).1],
         (checkRedisRateLimit w limit windowMs t).2) := rfl

theorem getLast?_mem_int : ∀ (l : List Int) (u : Int), l.getLast? = some u → u ∈ l := by
  intro l
  induction l with
  | nil => intro u h; simp at h
  | cons a t ih =>
    intro u h
    cases t with
    | nil =>
      simp [List.getLast?] at h
      simp [h]
    | cons b t2 =>
      rw [List.getLast?_cons_cons] at h
      exact List.mem_cons_of_mem _ (ih u h)

/-- C4: against the primary Redis sliding-window backend, a fresh identifier
issuing limit checks at strictly increasing instants inside one window is
admitted on every one of them, and the following check still inside the
window of the first is denied with remaining 0, totalHits limit, and reset
instant equal to the oldest surviving admitted timestamp plus the window;
moreover after any check the surviving event set holds no timestamp at or
below now minus the window (the prune step of the Lua script). -/
theorem rate_sliding_window_limit_then_deny (limit windowMs : Nat) (t1 : Int)
    (rest : List Int) (tExtra : Int)
    (hw : 0 < windowMs)
    (hpw : List.Pairwise (fun a b => a < b) (t1 :: (rest ++ [tExtra])))
    (hspan : tExtra < t1 + (windowMs : Int))
    (hlen : rest.length + 1 = limit) :
    (∀ r ∈ (runChecks limit windowMs ⟨[], 0⟩ ((t1 :: rest) ++ [tExtra])).1.take limit,
        r.allowed = true) ∧
    (runChecks limit windowMs ⟨[], 0⟩ ((t1 :: rest) ++ [tExtra])).1.get? limit
        = some ⟨false, limit, 0, t1 + (windowMs : Int), limit⟩ ∧
    (∀ (w : RedisWindow) (now e : Int),
        e ∈ (checkRedisRateLimit w limit windowMs now).2.events →
        ¬ (0 ≤ e ∧ e ≤ now - (windowMs : Int))) := by
  have hSle : ∀ a ∈ t1 :: (rest ++ [tExtra]), t1 ≤ a := by
    intro a ha
    rcases List.mem_cons.mp ha with h | h
    · omega
    · exact le_of_lt ((List.pairwise_cons.mp hpw).1 a h)
  have hpw2 : List.Pairwise (fun a b : Int => a < b) ((t1 :: rest) ++ [tExtra]) := hpw
  have hTle : ∀ a ∈ t1 :: (rest ++ [tExtra]), a ≤ tExtra := by
    intro a ha
    have ha2 : a ∈ (t1 :: rest) ++ [tExtra] := ha
    rcases List.mem_append.mp ha2 with h | h
    · exact le_of_lt ((List.pairwise_append.mp hpw2).2.2 a h tExtra (by simp))
    · simp at h; omega
  have hbound : ∀ a ∈ t1 :: (rest ++ [tExtra]), ∀ b ∈ t1 :: (rest ++ [tExtra]),
      b < a + (windowMs : Int) := by
    intro a ha b hb
    have h1 := hSle a ha
    have h2 := hTle b hb
    omega
  have hsubmem : ∀ a ∈ t1 :: rest, a ∈ t1 :: (rest ++ [tExtra]) := by
    intro a ha
    rcases List.mem_cons.mp ha with h | h
    · simp [h]
    · simp [h]
  have haux := runChecks_all_admitted limit windowMs hw (t1 :: rest) [] 0
    (by simp; omega)
    (by
      simp only [List.nil_append]
      exact hpw2.sublist (List.sublist_append_left (t1 :: rest) [tExtra]))
    (by
      simp only [List.nil_append]
      intro a ha b hb
      exact hbound a (hsubmem a ha) b (hsubmem b hb))
    (Or.inl rfl)
  simp only [List.nil_append] at haux
  obtain ⟨hev1, hall1, hke1⟩ := haux
  obtain ⟨u, hu⟩ : ∃ u, (t1 :: rest).getLast? = some u := by
    cases hgl : (t1 :: rest).getLast? with
    | none => simp at hgl
    | some u => exact ⟨u, rfl⟩
  rw [hu] at hke1
  have humem : u ∈ t1 :: rest := getLast?_mem_int _ u hu
  have hwin2 : ∀ e ∈ (runChecks limit windowMs ⟨[], 0⟩ (t1 :: rest)).2.events,
      tExtra < e + (windowMs : Int) := by
    rw [hev1]
    intro e he
    exact hbound e (hsubmem e he) tExtra (by simp)
  have hdeny := check_deny_step limit windowMs
    (runChecks limit windowMs ⟨[], 0⟩ (t1 :: rest)).2 tExtra t1
    (by rw [hev1]; simp; omega)
    hwin2
    (by
      have hke2 : (runChecks limit windowMs ⟨[], 0⟩ (t1 :: rest)).2.keyExpiresAt
          = u + (ceilSec windowMs : Int) * 1000 := hke1
      rw [hke2]
      have h1 : tExtra < u + (windowMs : Int) :=
        hbound u (hsubmem u humem) tExtra (by simp)
      have h2 := windowMs_le_ceilSec windowMs
      omega)
    (by
      rw [hev1]
      refine listMin_head_of_le t1 rest ?_
      intro a ha
      exact hSle a (by simp [ha]))
  have hsplit := runChecks_append limit windowMs (t1 :: rest) [tExtra] ⟨[], 0⟩
  have hr2 : runChecks limit windowMs
      (runChecks limit windowMs ⟨[], 0⟩ (t1 :: rest)).2 [tExtra]
      = ([⟨false, limit, 0, t1 + (windowMs : Int),
            (runChecks limit windowMs ⟨[], 0⟩ (t1 :: rest)).2.events.length⟩],
         (runChecks limit windowMs ⟨[], 0⟩ (t1 :: rest)).2) := by
    rw [runChecks_single, hdeny]
  have hlen1 : (runChecks limit windowMs ⟨[], 0⟩ (t1 :: rest)).1.length = limit := by
    rw [runChecks_length]
    simp
    omega
  have hev1len : (runChecks limit windowMs ⟨[], 0⟩ (t1 :: rest)).2.events.length
      = limit := by
    rw [hev1]
    simp
    omega
  refine ⟨?_, ?_, ?_⟩
  · intro r hr
    rw [hsplit, hr2] at hr
    simp only at hr
    rw [take_append_of_length _ _ _ hlen1] at hr
    exact hall1 r hr
  · rw [hsplit, hr2]
    simp only
    rw [get?_append_singleton _ _ _ hlen1, hev1len]
  · intro w now e he
    intro hcon
    unfold checkRedisRateLimit at he
    by_cases hfull : limit ≤ ((if w.keyExpiresAt ≤ now then ([] : List Int)
        else w.events).filter
        (fun u => !(decide (0 ≤ u) && decide (u ≤ now - (windowMs : Int))))).length
    · rw [if_pos hfull] at he
      simp only [List.mem_filter] at he
      have := he.2
      simp only [Bool.not_eq_true', Bool.and_eq_false_iff, decide_eq_false_iff_not] at this
      rcases this with h | h
      · exact h hcon.1
      · exact h hcon.2
    · rw [if_neg hfull] at he
      simp only at he
      by_cases hmem : now ∈ (if w.keyExpiresAt ≤ now then ([] : List Int)
          else w.events).filter
          (fun u => !(decide (0 ≤ u) && decide (u ≤ now - (windowMs : Int))))
      · rw [if_pos hmem] at he
        simp only [List.mem_filter] at he
        have := he.2
        simp only [Bool.not_eq_true', Bool.and_eq_false_iff, decide_eq_false_iff_not] at this
        rcases this with h | h
        · exact h hcon.1
        · exact h hcon.2
      · rw [if_neg hmem] at he
        rcases List.mem_append.mp he with h | h
        · simp only [List.mem_filter] at h
          have := h.2
          simp only [Bool.not_eq_true', Bool.and_eq_false_iff, decide_eq_false_iff_not] at this
          rcases this with h2 | h2
          · exact h2 hcon.1
          · exact h2 hcon.2
        · simp at h
          subst h
          omega

theorem rate_sliding_window_limit_then_deny_witness :
    (runChecks 2 60000 ⟨[], 0⟩ [1000, 2000, 3000]).1.get? 2
      = some ⟨false, 2, 0, 61000, 2⟩ :=
  (rate_sliding_window_limit_then_deny 2 60000 1000 [2000] 3000
    (by decide) (by decide) (by decide) rfl).2.1

/-- Math.ceil of a natural division, as used to compute batchCount
(overdue-tasks.service.ts line 52). -/
def ceilDiv (a b : Nat) : Nat := (a + b - 1) / b

/-- The scheduler batch size constant (overdue-tasks.service.ts line 14). -/
def OVERDUE_BATCH_SIZE : Nat := 100

/-- The payload and enqueue options of one process-overdue-tasks batch job
(overdue-tasks.service.ts lines 57-75). -/
structure BatchJobSpec where
  batchNumber : Nat
  totalBatches : Nat
  batchSize : Nat
  delayMs : Nat
  attempts : Nat
deriving Repr, DecidableEq

/-- The batch-enqueue loop of OverdueTasksService.handleOverdueTasksScheduled
(overdue-tasks.service.ts lines 44-83): zero eligible records is a no-op;
otherwise one job per batch is attempted, the payload carrying
(batchNumber, totalBatches, batchSize) and the options carrying
attempts 3 and delay batchIndex times 1000 ms; each enqueue outcome
(enqueueOk) is recorded per batch, and a failed enqueue is caught and
logged inside the loop body so the loop continues with the next batch. -/
def scheduleOverdueBatches (overdueCount batchSize : Nat) (enqueueOk : Nat → Bool) :
    List (BatchJobSpec × Bool) :=
  if overdueCount = 0 then []
  else
    (List.range (ceilDiv overdueCount batchSize)).map (fun b =>
      ({ batchNumber := b + 1, totalBatches := ceilDiv overdueCount batchSize,
         batchSize := batchSize, delayMs := b * 1000, attempts := 3 },
       enqueueOk b))

/-- OverdueTasksService.handleOverdueTasksScheduled (overdue-tasks.service.ts
lines 29-93): the re-entrancy guard skips the pass when one is already in
flight; otherwise the batches are scheduled with the fixed batch size. -/
def handleOverdueTasksScheduled (isProcessing : Bool) (overdueCount : Nat)
    (enqueueOk : Nat → Bool) : List (BatchJobSpec × Bool) :=
  if isProcessing then []
  else scheduleOverdueBatches overdueCount OVERDUE_BATCH_SIZE enqueueOk

/-- The value returned to the queue by one execution of the worker process
function: createJobResult reduced to its success flag and error field
(part_002 lines 463-480). -/
structure JobOutcome where
  success : Bool
  error : Option String
deriving Repr, DecidableEq

/-- The worker retry ceiling (part_002 line 34). -/
def MAX_RETRY_ATTEMPTS : Nat := 3

/-- TaskProcessorService.process (part_002 lines 45-112) with the per-kind
handler dispatch abstracted as the handler outcome: a successful handler
yields a success result; a failing handler re-raises the error while
attemptsMade is below MAX_RETRY_ATTEMPTS minus one (line 104) and otherwise
RETURNS a failure-flagged result (line 109), which the queue treats as a
normal completion. -/
def processJob (handlerOutcome : Except String Unit) (attemptsMade : Nat) :
    Except String JobOutcome :=
  match handlerOutcome with
  | .ok _ => .ok { success := true, error := none }
  | .error e =>
    if attemptsMade < MAX_RETRY_ATTEMPTS - 1 then .error e
    else .ok { success := false, error := some e }

/-- Terminal queue state of a job: completed with a returned result, or
moved to the failed set after its last allowed attempt threw. -/
inductive JobFinal
  | completed (r : JobOutcome)
  | failedSet (e : String)
deriving Repr, DecidableEq

/-- BullMQ retry semantics (the queue library): an execution of process that
throws is re-attempted with attemptsMade incremented while fewer than
maxAttempts executions have run; a normal return completes the job.  The
first component lists the attemptsMade value of every execution of process.
Fuel equals the attempts still allowed. -/
def runJobLifecycle (handler : Nat → Except String Unit) (maxAttempts : Nat) :
    Nat → Nat → List Nat × JobFinal
  | 0, _ => ([], .failedSet "no attempts allowed")
  | fuel + 1, a =>
    match processJob (handler a) a with
    | .ok r => ([a], .completed r)
    | .error e =>
      if a + 1 < maxAttempts then
        let next := runJobLifecycle handler maxAttempts fuel (a + 1)
        (a :: next.1, next.2)
      else ([a], .failedSet e)

/-- Jobs handed to the dead-letter-queue during a job lifecycle.  The queue
named dead-letter-queue is registered (app.module.ts line 160) and
configured (bull.config.ts lines 150-164), but no statement in the source
ever adds a job to it, so every lifecycle hands over the empty list. -/
def deadLetterAdds (terminal : JobFinal) : List JobOutcome :=
  let _ := terminal
  []

/-- C2 evaluation at the failing input: a job with maxAttempts 3 whose
handler throws on every execution runs process exactly three times (at
attemptsMade 0, 1 and 2; the first two re-raise, the third does not), then
finishes as COMPLETED in the queue carrying a success false result, and
nothing is ever handed to the dead-letter queue, contradicting the claim
that the job is handed exactly once to the dead-letter sink. -/
theorem job_three_failures_never_dead_lettered :
    runJobLifecycle (fun _ => .error "handler failure") 3 3 0
      = ([0, 1, 2],
         .completed { success := false, error := some "handler failure" })
    ∧ deadLetterAdds
        (.completed { success := false, error := some "handler failure" }) = [] :=
  ⟨rfl, rfl⟩

/-- C5: a scheduling pass that is not skipped by the re-entrancy guard and
finds a positive number of eligible records attempts exactly
ceil(overdueCount / 100) batch jobs; the i-th attempted job carries payload
batchNumber i+1, totalBatches ceil(overdueCount / 100), batchSize 100,
delay i * 1000 ms (hence strictly increasing across batches) and
attempts 3; the outcome of each enqueue is exactly its own enqueueOk
verdict, independent of the other batches, so one failed enqueue aborts
nothing; and when every enqueue succeeds exactly ceil(overdueCount / 100)
jobs are enqueued. -/
theorem scheduler_enqueues_ceil_batches (overdueCount : Nat)
    (enqueueOk : Nat → Bool) (hN : 0 < overdueCount) :
    (handleOverdueTasksScheduled false overdueCount enqueueOk).length
        = ceilDiv overdueCount 100 ∧
    (∀ i, i < ceilDiv overdueCount 100 →
      (handleOverdueTasksScheduled false overdueCount enqueueOk).get? i
        = some ({ batchNumber := i + 1,
                  totalBatches := ceilDiv overdueCount 100,
                  batchSize := 100, delayMs := i * 1000, attempts := 3 },
                enqueueOk i)) ∧
    (∀ i j p q,
      (handleOverdueTasksScheduled false overdueCount enqueueOk).get? i = some p →
      (handleOverdueTasksScheduled false overdueCount enqueueOk).get? j = some q →
      i < j → p.1.delayMs < q.1.delayMs) ∧
    ((∀ b, enqueueOk b = true) →
      ((handleOverdueTasksScheduled false overdueCount enqueueOk).filter
          (fun p => p.2)).length = ceilDiv overdueCount 100) := by
  have hsched : handleOverdueTasksScheduled false overdueCount enqueueOk
      = (List.range (ceilDiv overdueCount 100)).map (fun b =>
          ({ batchNumber := b + 1, totalBatches := ceilDiv overdueCount 100,
             batchSize := 100, delayMs := b * 1000, attempts := 3 },
           enqueueOk b)) := by
    simp [handleOverdueTasksScheduled, scheduleOverdueBatches,
      OVERDUE_BATCH_SIZE, Nat.pos_iff_ne_zero.mp hN]
  have hget : ∀ i, i < ceilDiv overdueCount 100 →
      (handleOverdueTasksScheduled false overdueCount enqueueOk).get? i
        = some ({ batchNumber := i + 1,
                  totalBatches := ceilDiv overdueCount 100,
                  batchSize := 100, delayMs := i * 1000, attempts := 3 },
                enqueueOk i) := by
    intro i hi
    rw [hsched, List.get?_map, List.get?_range hi]
    rfl
  have hlen : (handleOverdueTasksScheduled false overdueCount enqueueOk).length
      = ceilDiv overdueCount 100 := by
    rw [hsched, List.length_map, List.length_range]
  refine ⟨hlen, hget, ?_, ?_⟩
  · intro i j p q hp hq hij
    have hjlt : j < ceilDiv overdueCount 100 := by
      by_contra hcon
      push_neg at hcon
      rw [List.get?_eq_none.mpr (by omega)] at hq
      exact Option.noConfusion hq
    have hilt : i < ceilDiv overdueCount 100 := by omega
    have hp2 := hget i hilt
    have hq2 := hget j hjlt
    rw [hp2] at hp
    rw [hq2] at hq
    have hpv := Option.some_inj.mp hp
    have hqv := Option.some_inj.mp hq
    rw [← hpv, ← hqv]
    simp only
    omega
  · intro hall
    rw [hsched]
    rw [List.filter_eq_self.mpr]
    · rw [List.length_map, List.length_range]
    · intro p hp
      rcases List.mem_map.mp hp with ⟨b, hb, hbp⟩
      rw [← hbp]
      exact hall b

theorem scheduler_enqueues_ceil_batches_witness :
    (handleOverdueTasksScheduled false 250 (fun _ => true)).length = 3 ∧
    (handleOverdueTasksScheduled false 250 (fun _ => true)).get? 2
      = some ({ batchNumber := 3, totalBatches := 3, batchSize := 100,
                delayMs := 2000, attempts := 3 }, true) :=
  ⟨(scheduler_enqueues_ceil_batches 250 (fun _ => true) (by decide)).1,
   (scheduler_enqueues_ceil_batches 250 (fun _ => true) (by decide)).2.1 2
     (by decide)⟩

/-- A task row as seen by the overdue batch handler: its id and owner. -/
structure TaskRec where
  id : String
  userId : String
deriving Repr, DecidableEq

/-- Per-job metrics aggregated by the worker (part_002 lines 13-21). -/
structure JobMetrics where
  tasksProcessed : Nat
  tasksSuccess : Nat
  tasksFailed : Nat
  errors : List String
deriving Repr, DecidableEq

/-- Whether a per-item promise settled fulfilled. -/
def exceptOk : Except String Unit → Bool
  | .ok _ => true
  | .error _ => false

/-- The results.forEach aggregation over the allSettled outcomes (part_002
lines 319-327): every task contributes either a success count or a failure
count plus one error string. -/
def settleOutcomes (outcome : TaskRec → Except String Unit) :
    List TaskRec → JobMetrics → JobMetrics
  | [], m => m
  | t :: ts, m =>
    match outcome t with
    | .ok _ =>
      settleOutcomes outcome ts { m with tasksSuccess := m.tasksSuccess + 1 }
    | .error e =>
      settleOutcomes outcome ts
        { m with tasksFailed := m.tasksFailed + 1,
                 errors := m.errors ++ ["Task " ++ t.id ++ ": " ++ e] }

/-- TaskProcessorService.handleOverdueTasks (part_002 lines 279-348) over
the fetched batch: tasksProcessed is set to the batch size, an empty batch
returns early, and otherwise every item is dispatched through
Promise.allSettled (so one rejection aborts nothing) and the settled
outcomes are folded into the metrics; the handler itself returns normally
whatever the per-item outcomes, so the surrounding process call records the
job as succeeded (second component true). -/
def handleOverdueTasks (tasks : List TaskRec)
    (outcome : TaskRec → Except String Unit) : JobMetrics × Bool :=
  let m0 : JobMetrics :=
    { tasksProcessed := tasks.length, tasksSuccess := 0, tasksFailed := 0,
      errors := [] }
  if tasks.length = 0 then (m0, true)
  else (settleOutcomes outcome tasks m0, true)

theorem filter_length_split {α : Type} (p : α → Bool) :
    ∀ l : List α,
      (l.filter p).length + (l.filter (fun x => !(p x))).length = l.length := by
  intro l
  induction l with
  | nil => rfl
  | cons x t ih =>
    cases hx : p x <;> simp [List.filter, hx, ih] <;> omega

theorem settleOutcomes_counts (outcome : TaskRec → Except String Unit) :
    ∀ (tasks : List TaskRec) (m : JobMetrics),
      (settleOutcomes outcome tasks m).tasksProcessed = m.tasksProcessed ∧
      (settleOutcomes outcome tasks m).tasksSuccess
        = m.tasksSuccess + (tasks.filter (fun t => exceptOk (outcome t))).length ∧
      (settleOutcomes outcome tasks m).tasksFailed
        = m.tasksFailed
          + (tasks.filter (fun t => !(exceptOk (outcome t)))).length ∧
      (settleOutcomes outcome tasks m).errors.length
        = m.errors.length
          + (tasks.filter (fun t => !(exceptOk (outcome t)))).length := by
  intro tasks
  induction tasks with
  | nil => intro m; simp [settleOutcomes]
  | cons t ts ih =>
    intro m
    cases ho : outcome t with
    | ok u =>
      have hok : exceptOk (outcome t) = true := by simp [ho, exceptOk]
      have := ih { m with tasksSuccess := m.tasksSuccess + 1 }
      simp only [settleOutcomes, ho] at this ⊢
      simp only [List.filter, hok, Bool.not_true]
      refine ⟨this.1, ?_, ?_, ?_⟩
      · rw [this.2.1]; simp; omega
      · rw [this.2.2.1]
      · rw [this.2.2.2]
    | error e =>
      have hko : exceptOk (outcome t) = false := by simp [ho, exceptOk]
      have := ih { m with tasksFailed := m.tasksFailed + 1,
                          errors := m.errors ++ ["Task " ++ t.id ++ ": " ++ e] }
      simp only [settleOutcomes, ho] at this ⊢
      simp only [List.filter, hko, Bool.not_false]
      refine ⟨this.1, ?_, ?_, ?_⟩
      · rw [this.2.1]
      · rw [this.2.2.1]; simp; omega
      · rw [this.2.2.2]; simp; omega

/-- C8: for every batch of tasks and every assignment of per-item outcomes,
the batch handler records the whole batch as processed, counts exactly the
fulfilled items as successes and the rejected items as failures (their sum
is the batch size, so every item is attempted), pushes one error string per
failed item, and the job itself still completes successfully: item failures
are isolated and never fail the job or their sibling items. -/
theorem batch_item_failures_isolated (tasks : List TaskRec)
    (outcome : TaskRec → Except String Unit) :
    (handleOverdueTasks tasks outcome).2 = true ∧
    (handleOverdueTasks tasks outcome).1.tasksProcessed = tasks.length ∧
    (handleOverdueTasks tasks outcome).1.tasksSuccess
      = (tasks.filter (fun t => exceptOk (outcome t))).length ∧
    (handleOverdueTasks tasks outcome).1.tasksFailed
      = (tasks.filter (fun t => !(exceptOk (outcome t)))).length ∧
    (handleOverdueTasks tasks outcome).1.tasksSuccess
      + (handleOverdueTasks tasks outcome).1.tasksFailed = tasks.length ∧
    (handleOverdueTasks tasks outcome).1.errors.length
      = (handleOverdueTasks tasks outcome).1.tasksFailed := by
  by_cases hz : tasks.length = 0
  · have hnil : tasks = [] := List.length_eq_zero.mp hz
    subst hnil
    simp [handleOverdueTasks]
  · have hc := settleOutcomes_counts outcome tasks
      { tasksProcessed := tasks.length, tasksSuccess := 0, tasksFailed := 0,
        errors := [] }
    have hsplit := filter_length_split (fun t => exceptOk (outcome t)) tasks
    simp only [handleOverdueTasks, hz, if_false]
    refine ⟨trivial, hc.1, ?_, ?_, ?_, ?_⟩
    · rw [hc.2.1]; simp
    · rw [hc.2.2.1]; simp
    · rw [hc.2.1, hc.2.2.1]; simp; omega
    · rw [hc.2.2.2, hc.2.2.1]; simp

/-- Task status enum (task-status.enum.ts). -/
inductive TaskStatus
  | pending
  | in_progress
  | completed
deriving Repr, DecidableEq

/-- Task priority enum (task-priority.enum.ts). -/
inductive TaskPriority
  | low
  | medium
  | high
deriving Repr, DecidableEq

/-- The mutable columns of a Task row acted on by the worker handlers. -/
structure TaskState where
  userId : String
  title : String
  description : String
  status : TaskStatus
  priority : TaskPriority
  dueDate : Int
  updatedAt : Int
deriving Repr, DecidableEq

/-- The updateData of a batch-task-update job payload: a partial record of
column overwrites (part_002 line 370). -/
structure TaskUpdateData where
  title : Option String
  description : Option String
  status : Option TaskStatus
  priority : Option TaskPriority
  dueDate : Option Int
deriving Repr, DecidableEq

/-- The per-row effect of repository.update(criteria, safeUpdateData)
(part_002 lines 392-401): each present payload field overwrites its column
with a fixed value and updatedAt is set to the execution instant. -/
def applyBatchTaskUpdate (u : TaskUpdateData) (now : Int) (t : TaskState) :
    TaskState :=
  { userId := t.userId,
    title := u.title.getD t.title,
    description := u.description.getD t.description,
    status := u.status.getD t.status,
    priority := u.priority.getD t.priority,
    dueDate := u.dueDate.getD t.dueDate,
    updatedAt := now }

/-- The per-row effect of TaskProcessorService.processOverdueTask (part_002
lines 350-367): only updatedAt is set. -/
def processOverdueTaskUpdate (now : Int) (t : TaskState) : TaskState :=
  { t with updatedAt := now }

/-- The row-selection criteria of handleBatchTaskUpdate: id among the
payload taskIds and owned by the payload user (part_002 lines 379-384). -/
def batchCond (taskIds : List String) (userId : String)
    (p : String × TaskState) : Bool :=
  taskIds.contains p.1 && p.2.userId == userId

/-- One row of repository.update under the selection criteria. -/
def batchApply (taskIds : List String) (userId : String) (u : TaskUpdateData)
    (now : Int) (p : String × TaskState) : String × TaskState :=
  if batchCond taskIds userId p then (p.1, applyBatchTaskUpdate u now p.2)
  else p

/-- TaskProcessorService.handleBatchTaskUpdate (part_002 lines 369-420) as a
repository transformation: an empty taskIds payload throws; a mismatch
between the rows found for (taskIds, userId) and the requested ids throws;
otherwise every matching row receives the field overwrites with updatedAt
set to the execution instant. -/
def handleBatchTaskUpdate (repo : List (String × TaskState))
    (taskIds : List String) (userId : String) (u : TaskUpdateData)
    (now : Int) : Except String (List (String × TaskState)) :=
  if taskIds.isEmpty then .error "Missing or invalid taskIds array"
  else if (repo.filter (batchCond taskIds userId)).length ≠ taskIds.length then
    .error "Tasks not found or access denied"
  else .ok (repo.map (batchApply taskIds userId u now))

theorem opt_getD_getD {α : Type} (o : Option α) (x : α) :
    o.getD (o.getD x) = o.getD x := by
  cases o <;> rfl

theorem applyBatchTaskUpdate_twice (u : TaskUpdateData) (n1 n2 : Int)
    (t : TaskState) :
    applyBatchTaskUpdate u n2 (applyBatchTaskUpdate u n1 t)
      = applyBatchTaskUpdate u n2 t := by
  simp [applyBatchTaskUpdate, opt_getD_getD]

theorem cond_batchApply (taskIds : List String) (userId : String)
    (u : TaskUpdateData) (now : Int) (p : String × TaskState) :
    batchCond taskIds userId (batchApply taskIds userId u now p)
      = batchCond taskIds userId p := by
  unfold batchApply
  by_cases h : batchCond taskIds userId p
  · rw [if_pos h]
    rfl
  · rw [if_neg h]

theorem batchApply_twice (taskIds : List String) (userId : String)
    (u : TaskUpdateData) (n1 n2 : Int) (p : String × TaskState) :
    batchApply taskIds userId u n2 (batchApply taskIds userId u n1 p)
      = batchApply taskIds userId u n2 p := by
  by_cases h : batchCond taskIds userId p
  · have hc : batchCond taskIds userId (p.1, applyBatchTaskUpdate u n1 p.2)
        = true := h
    have e1 : batchApply taskIds userId u n1 p
        = (p.1, applyBatchTaskUpdate u n1 p.2) := by
      unfold batchApply; rw [if_pos h]
    have e2 : batchApply taskIds userId u n2 p
        = (p.1, applyBatchTaskUpdate u n2 p.2) := by
      unfold batchApply; rw [if_pos h]
    have e3 : batchApply taskIds userId u n2 (p.1, applyBatchTaskUpdate u n1 p.2)
        = (p.1, applyBatchTaskUpdate u n2 (applyBatchTaskUpdate u n1 p.2)) := by
      unfold batchApply; rw [if_pos hc]
    rw [e1, e3, e2, applyBatchTaskUpdate_twice]
  · unfold batchApply
    rw [if_neg h, if_neg h]

theorem map_congr_fn {α β : Type} (f g : α → β) :
    ∀ l : List α, (∀ x ∈ l, f x = g x) → l.map f = l.map g := by
  intro l
  induction l with
  | nil => intro _; rfl
  | cons x t ih =>
    intro h
    simp only [List.map]
    rw [h x (by simp), ih (fun y hy => h y (by simp [hy]))]

theorem filter_of_map {α β : Type} (f : α → β) (p : β → Bool) :
    ∀ l : List α, (l.map f).filter p = (l.filter (fun x => p (f x))).map f := by
  intro l
  induction l with
  | nil => rfl
  | cons x t ih =>
    simp only [List.map, List.filter]
    cases hx : p (f x) <;> simp [hx, ih]

theorem filter_congr_fn {α : Type} (p q : α → Bool) :
    ∀ l : List α, (∀ x ∈ l, p x = q x) → l.filter p = l.filter q := by
  intro l
  induction l with
  | nil => intro _; rfl
  | cons x t ih =>
    intro h
    simp only [List.filter]
    rw [h x (by simp), ih (fun y hy => h y (by simp [hy]))]

/-- C9: the batch-update handler is idempotent under at-least-once delivery:
re-executing it with the same payload on the repository it already produced
yields exactly the state a single execution (at the later instant) yields;
and at the row level both the batch-update effect and the mark-overdue
effect applied twice equal the effect applied once, because every field is
overwritten with a fixed value, never incremented. -/
theorem batch_update_handler_idempotent (repo repo1 : List (String × TaskState))
    (taskIds : List String) (userId : String) (u : TaskUpdateData) (n1 n2 : Int)
    (h1 : handleBatchTaskUpdate repo taskIds userId u n1 = .ok repo1) :
    handleBatchTaskUpdate repo1 taskIds userId u n2
      = handleBatchTaskUpdate repo taskIds userId u n2 ∧
    (∀ t : TaskState, applyBatchTaskUpdate u n2 (applyBatchTaskUpdate u n1 t)
        = applyBatchTaskUpdate u n2 t) ∧
    (∀ t : TaskState, processOverdueTaskUpdate n2 (processOverdueTaskUpdate n1 t)
        = processOverdueTaskUpdate n2 t) := by
  refine ⟨?_, fun t => applyBatchTaskUpdate_twice u n1 n2 t, fun t => rfl⟩
  unfold handleBatchTaskUpdate at h1 ⊢
  by_cases hemp : taskIds.isEmpty
  · rw [if_pos hemp] at h1
    exact absurd h1 (by simp)
  · rw [if_neg hemp] at h1
    rw [if_neg hemp, if_neg hemp]
    by_cases hlen : (repo.filter (batchCond taskIds userId)).length
        ≠ taskIds.length
    · rw [if_pos hlen] at h1
      exact absurd h1 (by simp)
    · rw [if_neg hlen] at h1
      have hrepo1 : repo1 = repo.map (batchApply taskIds userId u n1) := by
        simp only [Except.ok.injEq] at h1
        exact h1.symm
      subst hrepo1
      have hfilter : ((repo.map (batchApply taskIds userId u n1)).filter
          (batchCond taskIds userId)).length
          = (repo.filter (batchCond taskIds userId)).length := by
        rw [filter_of_map]
        rw [List.length_map]
        rw [filter_congr_fn _ _ repo
          (fun p _ => cond_batchApply taskIds userId u n1 p)]
      rw [hfilter, if_neg hlen, if_neg hlen]
      simp only [Except.ok.injEq]
      rw [List.map_map]
      apply map_congr_fn
      intro p _
      exact batchApply_twice taskIds userId u n1 n2 p

/-- A concrete task row used to instantiate the idempotence witness. -/
def exampleTask : TaskState :=
  { userId := "u1", title := "t", description := "d",
    status := TaskStatus.pending, priority := TaskPriority.low,
    dueDate := 0, updatedAt := 0 }

/-- A concrete batch-update payload used to instantiate the idempotence
witness. -/
def exampleUpdate : TaskUpdateData :=
  { title := none, description := none, status := some TaskStatus.completed,
    priority := none, dueDate := none }

theorem batch_update_handler_idempotent_witness :
    handleBatchTaskUpdate
        [("t1", applyBatchTaskUpdate exampleUpdate 10 exampleTask)]
        ["t1"] "u1" exampleUpdate 20
      = handleBatchTaskUpdate [("t1", exampleTask)] ["t1"] "u1" exampleUpdate 20 :=
  (batch_update_handler_idempotent [("t1", exampleTask)]
    [("t1", applyBatchTaskUpdate exampleUpdate 10 exampleTask)]
    ["t1"] "u1" exampleUpdate 10 20 rfl).1
